import Mathlib

/-!
Verification development for the strava-dashboard repository.

The repository has two scripts:
* `src/fetch.py` — pulls activities from the Strava API, filters runs,
  decodes the summary polyline, normalizes units and writes a CSV;
* `src/dashboard.py` — loads the CSV, computes derived statistics
  (personal bests, average pace, monthly buckets, cumulative distance)
  and renders a Dash UI.

The statistics core is embedded shallowly below: activity rows become a
Lean structure over `ℚ`, pandas column operations become list operations,
and computations that can raise a Python exception return `Option`/`Except`.
Timestamps are modelled as a calendar-month index (year*12 + month-1)
paired with a rational offset inside the month, ordered lexicographically:
this is exactly the information the dashboard uses (sorting by date and
bucketing by calendar month via `resample("ME")`).
-/

/-- A point in time: `month` is the absolute calendar-month index
(year*12 + (month-1)), `sub` the position within that month.
Chronological order is the lexicographic order on `(month, sub)`. -/
structure Timestamp where
  month : ℤ
  sub : ℚ
deriving DecidableEq, Repr

/-- Ascending-date comparison used by `sort_values("date")` in
`dashboard.py`. -/
def dateLe (s t : Timestamp) : Bool :=
  decide (s.month < t.month ∨ (s.month = t.month ∧ s.sub ≤ t.sub))

/-- One row of `data/activities.csv` as loaded by `load_data` in
`dashboard.py` (the columns written by `fetch.py`). -/
structure Activity where
  name : String
  distance_km : ℚ
  moving_time : ℚ
  elevation_gain : ℚ
  date : Timestamp
  average_speed : ℚ
  coordinates : List (ℚ × ℚ)
deriving DecidableEq

/-- The Strava brand color constant `STRAVA` from `dashboard.py`. -/
def STRAVA : String := "#FC4C02"

/-- `get_run_color` from `dashboard.py` lines 75-80:
`if distance_km < 5: "#60a5fa" elif distance_km < 15: STRAVA else "#ef4444"`. -/
def get_run_color (distance_km : ℚ) : String :=
  if distance_km < 5 then "#60a5fa"
  else if distance_km < 15 then STRAVA
  else "#ef4444"

/-- Floor of a rational, as an integer (Python floor semantics, as in
`math.floor` and the `%` operator). -/
def pyFloor (q : ℚ) : ℤ := ⌊q⌋

/-- Python `int()` applied to a number: truncation toward zero. -/
def pyInt (q : ℚ) : ℤ := if 0 ≤ q then ⌊q⌋ else ⌈q⌉

/-- Python's built-in `round` on a number with no `ndigits`: round half
to even, returning an integer. -/
def pyRound (q : ℚ) : ℤ :=
  let f := pyFloor q
  let r := q - f
  if r < 1/2 then f
  else if 1/2 < r then f + 1
  else if f % 2 = 0 then f else f + 1

/-- Rendering of an integer through Python's `{:02d}` format: pad the
decimal representation with zeros on the left to width 2. -/
def pad2 (n : ℤ) : String :=
  let s := toString n
  if s.length < 2 then "0" ++ s else s

/-- `format_time` from `dashboard.py` lines 32-41.  The Python function
receives either `None` (rendered `"N/A"`) or a number of minutes; the
`Option` argument models that. -/
def format_time : Option ℚ → String
  | none => "N/A"
  | some minutes =>
    let total_seconds : ℤ := pyRound (minutes * 60)
    let hours : ℤ := Int.fdiv total_seconds 3600
    let mins : ℤ := Int.fdiv (Int.fmod total_seconds 3600) 60
    let secs : ℤ := Int.fmod total_seconds 60
    if 0 < hours then
      toString hours ++ "h " ++ toString mins ++ "m " ++ pad2 secs ++ "s"
    else
      toString mins ++ "m " ++ pad2 secs ++ "s"

/-- `format_pace` from `dashboard.py` lines 44-47:
`mins = int(pace_min); secs = int((pace_min % 1) * 60)`.
Python `x % 1` on a number is `x - floor(x)`. -/
def format_pace (pace_min : ℚ) : String :=
  let mins : ℤ := pyInt pace_min
  let secs : ℤ := pyInt ((pace_min - (pyFloor pace_min : ℤ)) * 60)
  toString mins ++ ":" ++ pad2 secs ++ " /km"

/-- Minimum of a list of rationals, `none` on the empty list: models
`filtered.nsmallest(1, "moving_time")["moving_time"].values[0]` guarded
by the `filtered.empty` check in `safe_pb`. -/
def listMin : List ℚ → Option ℚ
  | [] => none
  | t :: ts => some (ts.foldl min t)

/-- `safe_pb` from `dashboard.py` lines 25-29: keep the rows whose
`distance_km` is at least `min_dist`; `None` if none remain, otherwise
the least `moving_time` among them. -/
def safe_pb (df : List Activity) (min_dist : ℚ) : Option ℚ :=
  listMin ((df.filter (fun a => min_dist ≤ a.distance_km)).map
    (fun a => a.moving_time))

/-- `df["distance_km"].sum()`. -/
def totalDistance (df : List Activity) : ℚ := (df.map (fun a => a.distance_km)).sum

/-- `df["moving_time"].sum()`. -/
def totalMovingTime (df : List Activity) : ℚ := (df.map (fun a => a.moving_time)).sum

/-- The `average_pace` expression inside `calculate_statistics`
(`dashboard.py` lines 52-54):
`df["moving_time"].sum() / total_distance_km if total_distance_km > 0 else 0`. -/
def average_pace (df : List Activity) : ℚ :=
  if 0 < totalDistance df then totalMovingTime df / totalDistance df else 0

/-- Calendar month of an activity (the bucket used by
`resample("ME", on="date")`). -/
def monthOf (a : Activity) : ℤ := a.date.month

/-- The month bins produced by `resample("ME", on="date")`: every
calendar month from the month of the earliest date to the month of the
latest date, in ascending order (pandas resampling bins cover the whole
observed range, including bins with no rows). -/
def resampleMonths (df : List Activity) : List ℤ :=
  match df.map monthOf with
  | [] => []
  | m :: ms =>
    let lo := ms.foldl min m
    let hi := ms.foldl max m
    (List.range (hi - lo + 1).toNat).map (fun i : ℕ => lo + (i : ℤ))

/-- `df.resample("ME", on="date").size()`: activity count per month bin. -/
def monthlySize (df : List Activity) : List (ℤ × ℕ) :=
  (resampleMonths df).map
    (fun m => (m, (df.filter (fun a => monthOf a = m)).length))

/-- `activities.resample("ME", on="date")["distance_km"].sum()`
(`dashboard.py` line 128): distance sum per month bin. -/
def monthly_dist (df : List Activity) : List (ℤ × ℚ) :=
  (resampleMonths df).map
    (fun m => (m, ((df.filter (fun a => monthOf a = m)).map
      (fun a => a.distance_km)).sum))

/-- Walk the series keeping the first index whose value is maximal so
far; pandas `Series.idxmax` keeps the first occurrence on ties. -/
def idxmaxGo {β : Type} [LinearOrder β] (best : ℤ × β) : List (ℤ × β) → ℤ
  | [] => best.1
  | p :: ps => if best.2 < p.2 then idxmaxGo p ps else idxmaxGo best ps

/-- `Series.idxmax`: the index of the first occurrence of the maximum
value; raises `ValueError` on an empty series, modelled by `none`. -/
def idxmax {β : Type} [LinearOrder β] : List (ℤ × β) → Option ℤ
  | [] => none
  | p :: ps => some (idxmaxGo p ps)

/-- `Series.max()` over the values of an integer-valued series
(`int(monthly.max())` in `calculate_statistics`); only used on
non-empty series. -/
def valuesMax (l : List (ℤ × ℕ)) : ℕ :=
  match l.map Prod.snd with
  | [] => 0
  | x :: xs => xs.foldl max x

/-- `Series.max()` over a rational column (`df["distance_km"].max()`);
only reached on non-empty data in the modelled paths. -/
def listMax0 : List ℚ → ℚ
  | [] => 0
  | x :: xs => xs.foldl max x

/-- English month name for a month index `0..11`, as produced by
`strftime("%B ...")`. -/
def monthName : ℤ → String
  | 0 => "January"
  | 1 => "February"
  | 2 => "March"
  | 3 => "April"
  | 4 => "May"
  | 5 => "June"
  | 6 => "July"
  | 7 => "August"
  | 8 => "September"
  | 9 => "October"
  | 10 => "November"
  | 11 => "December"
  | _ => ""

/-- `strftime("%B %Y")` applied to (the month-end label of) an absolute
month index. -/
def fmtMonthYear (m : ℤ) : String :=
  monthName (Int.fmod m 12) ++ " " ++ toString (Int.fdiv m 12)

/-- The record returned by `calculate_statistics`
(`dashboard.py` lines 50-69). -/
structure Stats where
  total_distance_km : ℚ
  total_runs : ℕ
  total_elevation : ℚ
  longest_run : ℚ
  highest_elevation : ℚ
  pb_5km : String
  pb_10km : String
  pb_half_marathon : String
  pb_marathon : String
  average_pace : ℚ
  month_with_most_activities : String
  most_activities_count : ℕ
deriving DecidableEq

/-- `calculate_statistics` from `dashboard.py` lines 50-69.  The dict
construction calls `monthly.idxmax()`, which raises `ValueError` when
the monthly series is empty (i.e. when `df` is empty); the `Option`
result models that exception as `none`. -/
def calculate_statistics (df : List Activity) : Option Stats :=
  match idxmax (monthlySize df) with
  | none => none
  | some k => some
    { total_distance_km := totalDistance df
      total_runs := df.length
      total_elevation := (df.map (fun a => a.elevation_gain)).sum
      longest_run := listMax0 (df.map (fun a => a.distance_km))
      highest_elevation := listMax0 (df.map (fun a => a.elevation_gain))
      pb_5km := format_time (safe_pb df 5)
      pb_10km := format_time (safe_pb df 10)
      pb_half_marathon := format_time (safe_pb df (210975/10000 : ℚ))
      pb_marathon := format_time (safe_pb df (42195/1000 : ℚ))
      average_pace := average_pace df
      month_with_most_activities := fmtMonthYear k
      most_activities_count := valuesMax (monthlySize df) }

/-- Ordered insertion by ascending date, the building block of
`sort_values("date")`. -/
def insertByDate (a : Activity) : List Activity → List Activity
  | [] => [a]
  | b :: bs => if dateLe a.date b.date then a :: b :: bs else b :: insertByDate a bs

/-- `activities.sort_values("date")` (`dashboard.py` line 131): the
activities reordered by ascending date. -/
def sort_values_date (df : List Activity) : List Activity :=
  df.foldr insertByDate []

/-- Running sums with accumulator `acc`: `Series.cumsum()`. -/
def cumsumGo (acc : ℚ) : List ℚ → List ℚ
  | [] => []
  | x :: xs => (acc + x) :: cumsumGo (acc + x) xs

/-- The `cumulative_km` column from `dashboard.py` lines 131-132:
sort by ascending date, then the running sum of `distance_km`,
one point per activity. -/
def cumulative_km (df : List Activity) : List ℚ :=
  cumsumGo 0 ((sort_values_date df).map (fun a => a.distance_km))

/-! ### Per-activity pace (`load_data`)

`load_data` (`dashboard.py` lines 14-19) computes
`activities["pace"] = activities["moving_time"] / activities["distance_km"]`
with pandas float64 columns.  IEEE-754 division does not raise on a zero
divisor: it yields NaN for `0/0` and a signed infinity otherwise.  `FVal`
records exactly this outcome classification; the finite case carries the
exact rational quotient (binary rounding of an already-finite quotient is
irrelevant to the claims, which only concern the zero-divisor case). -/

/-- Result of a pandas/numpy float64 division: a finite value or one of
the non-finite sentinels. -/
inductive FVal where
  | finite (q : ℚ)
  | inf
  | neginf
  | nan
deriving DecidableEq

/-- IEEE-754 division of two finite values (with a non-negative zero
divisor, the only kind arising from the CSV columns): zero divisor gives
NaN or a signed infinity, never an exception. -/
def npDiv (a b : ℚ) : FVal :=
  if b = 0 then
    if a = 0 then FVal.nan else if 0 < a then FVal.inf else FVal.neginf
  else FVal.finite (a / b)

/-- The derived `pace` column of `load_data`:
`moving_time / distance_km` under pandas float semantics. -/
def load_pace (a : Activity) : FVal := npDiv a.moving_time a.distance_km

/-! ### Ingestion (`fetch.py`)

The activities loop of `fetch.py` lines 33-50: for each item classified
as a run, a missing/empty `summary_polyline` is skipped with `continue`;
otherwise `polyline.decode` is called with no surrounding try/except, so
a decoding exception propagates out of the loop.  The polyline decoder
is a third-party library; it is taken as a parameter
`decode : String → Except DecodeError _` rather than re-implemented. -/

/-- Failure of the third-party polyline decoder on a malformed
encoding. -/
inductive DecodeError where
  | malformed
deriving DecidableEq

/-- One item of the Strava `/athlete/activities` response, restricted to
the fields the fetch loop reads.  `summary_polyline` is
`activity.get("map", {}).get("summary_polyline")`, `none` when absent. -/
structure RawActivity where
  sport_type : Option String
  type : Option String
  name : String
  distance : ℚ
  moving_time : ℚ
  total_elevation_gain : ℚ
  start_date_local : Timestamp
  average_speed : ℚ
  summary_polyline : Option String
deriving DecidableEq

/-- The run filter of `fetch.py` line 34:
`activity.get("sport_type") == "Run" or activity.get("type") == "Run"`. -/
def isRun (a : RawActivity) : Bool :=
  a.sport_type == some "Run" || a.type == some "Run"

/-- The polyline field after the falsy check of `fetch.py` lines 35-37:
`if not polyline_data: continue` treats both a missing field and the
empty string as absent. -/
def polyData (a : RawActivity) : Option String :=
  match a.summary_polyline with
  | none => none
  | some s => if s = "" then none else some s

/-- The record appended in `fetch.py` lines 39-49, with unit
normalization (`distance / 1000`, `moving_time / 60`). -/
def mkActivity (r : RawActivity) (coords : List (ℚ × ℚ)) : Activity :=
  { name := r.name
    distance_km := r.distance / 1000
    moving_time := r.moving_time / 60
    elevation_gain := r.total_elevation_gain
    date := r.start_date_local
    average_speed := r.average_speed
    coordinates := coords }

/-- The per-page activities loop of `fetch.py` lines 33-50.  A decode
exception propagates (`Except.error`), aborting the whole loop and
discarding the records accumulated so far; a record with a missing or
empty polyline is skipped and the loop continues. -/
def fetchRuns (decode : String → Except DecodeError (List (ℚ × ℚ))) :
    List RawActivity → Except DecodeError (List Activity)
  | [] => Except.ok []
  | a :: rest =>
    if isRun a then
      match polyData a with
      | none => fetchRuns decode rest
      | some p =>
        match decode p with
        | Except.error e => Except.error e
        | Except.ok coords =>
          match fetchRuns decode rest with
          | Except.error e => Except.error e
          | Except.ok acts => Except.ok (mkActivity a coords :: acts)
    else fetchRuns decode rest

/-! ### Concrete fixtures used by counterexamples and witnesses -/

/-- A minimal activity in calendar month `m` with distance `d`. -/
def mkA (m : ℤ) (d : ℚ) : Activity :=
  { name := "r"
    distance_km := d
    moving_time := d
    elevation_gain := 0
    date := { month := m, sub := 0 }
    average_speed := 0
    coordinates := [] }

/-- Two activities, in months 0 and 2 — month 1 has no activity. -/
def exGap : List Activity := [mkA 0 5, mkA 2 7]

/-- Eight activities over three consecutive months with counts 2, 5, 1. -/
def exBusy : List Activity :=
  [mkA 0 1, mkA 0 1, mkA 1 1, mkA 1 1, mkA 1 1, mkA 1 1, mkA 1 1, mkA 2 1]

/-- Two activities with out-of-order dates, for the cumulative series. -/
def exCum : List Activity := [mkA 3 4, mkA 1 6]

/-- An activity with zero distance, for the pace division witness. -/
def exZeroDist : Activity := mkA 0 0

/-- A stub polyline decoder that fails exactly on the string "bad". -/
def decodeStub (s : String) : Except DecodeError (List (ℚ × ℚ)) :=
  if s = "bad" then Except.error DecodeError.malformed else Except.ok [(0, 0)]

/-- A raw run activity with the given polyline field. -/
def mkRaw (nm : String) (p : Option String) : RawActivity :=
  { sport_type := some "Run"
    type := none
    name := nm
    distance := 5000
    moving_time := 1500
    total_elevation_gain := 10
    start_date_local := { month := 0, sub := 0 }
    average_speed := 3
    summary_polyline := p }

/-- A batch with a well-formed, a malformed, and another well-formed
geometry. -/
def exBatch : List RawActivity :=
  [mkRaw "a" (some "ok"), mkRaw "b" (some "bad"), mkRaw "c" (some "ok")]

/-- A minimal run with the given distance and moving time. -/
def mkRun (d t : ℚ) : Activity :=
  { name := "r"
    distance_km := d
    moving_time := t
    elevation_gain := 0
    date := { month := 0, sub := 0 }
    average_speed := 0
    coordinates := [] }

/-- The worked example of the spec: a 5 km run in 25 minutes and a
10 km run in 55 minutes. -/
def exPB : List Activity := [mkRun 5 25, mkRun 10 55]

/-! ## Helper lemmas -/

theorem pyRound_intCast (n : ℤ) : pyRound (n : ℚ) = n := by
  unfold pyRound pyFloor
  norm_num

section FoldMinMax

variable {α : Type} [LinearOrder α]

theorem foldl_min_mem (ts : List α) : ∀ t : α, ts.foldl min t ∈ t :: ts := by
  induction ts with
  | nil => intro t; simp
  | cons x xs ih =>
    intro t
    have h := ih (min t x)
    simp only [List.foldl_cons]
    rcases List.mem_cons.1 h with h1 | h1
    · rw [h1]
      rcases min_choice t x with hc | hc
      · rw [hc]; exact List.mem_cons_self _ _
      · rw [hc]; exact List.mem_cons.2 (Or.inr (List.mem_cons_self _ _))
    · exact List.mem_cons.2 (Or.inr (List.mem_cons.2 (Or.inr h1)))

theorem foldl_min_le (ts : List α) :
    ∀ t x, x ∈ t :: ts → ts.foldl min t ≤ x := by
  induction ts with
  | nil =>
    intro t x hx
    simp only [List.mem_singleton] at hx
    simp [hx]
  | cons y ys ih =>
    intro t x hx
    simp only [List.foldl_cons]
    rcases List.mem_cons.1 hx with h1 | h1
    · rw [h1]
      exact le_trans (ih (min t y) _ (List.mem_cons_self _ _)) (min_le_left _ _)
    · rcases List.mem_cons.1 h1 with h2 | h2
      · rw [h2]
        exact le_trans (ih (min t y) _ (List.mem_cons_self _ _)) (min_le_right _ _)
      · exact ih (min t y) x (List.mem_cons.2 (Or.inr h2))

theorem foldl_max_mem (ts : List α) : ∀ t : α, ts.foldl max t ∈ t :: ts := by
  induction ts with
  | nil => intro t; simp
  | cons x xs ih =>
    intro t
    have h := ih (max t x)
    simp only [List.foldl_cons]
    rcases List.mem_cons.1 h with h1 | h1
    · rw [h1]
      rcases max_choice t x with hc | hc
      · rw [hc]; exact List.mem_cons_self _ _
      · rw [hc]; exact List.mem_cons.2 (Or.inr (List.mem_cons_self _ _))
    · exact List.mem_cons.2 (Or.inr (List.mem_cons.2 (Or.inr h1)))

theorem foldl_le_max (ts : List α) :
    ∀ t x, x ∈ t :: ts → x ≤ ts.foldl max t := by
  induction ts with
  | nil =>
    intro t x hx
    simp only [List.mem_singleton] at hx
    simp [hx]
  | cons y ys ih =>
    intro t x hx
    simp only [List.foldl_cons]
    rcases List.mem_cons.1 hx with h1 | h1
    · rw [h1]
      exact le_trans (le_max_left _ _) (ih (max t y) _ (List.mem_cons_self _ _))
    · rcases List.mem_cons.1 h1 with h2 | h2
      · rw [h2]
        exact le_trans (le_max_right _ _) (ih (max t y) _ (List.mem_cons_self _ _))
      · exact ih (max t y) x (List.mem_cons.2 (Or.inr h2))

end FoldMinMax

theorem listMin_eq_none_iff (l : List ℚ) : listMin l = none ↔ l = [] := by
  cases l <;> simp [listMin]

theorem listMin_mem {l : List ℚ} {m : ℚ} (h : listMin l = some m) : m ∈ l := by
  cases l with
  | nil => simp [listMin] at h
  | cons t ts =>
    simp only [listMin, Option.some.injEq] at h
    rw [← h]
    exact foldl_min_mem ts t

theorem listMin_le {l : List ℚ} {m : ℚ} (h : listMin l = some m) :
    ∀ x ∈ l, m ≤ x := by
  cases l with
  | nil => simp [listMin] at h
  | cons t ts =>
    simp only [listMin, Option.some.injEq] at h
    intro x hx
    rw [← h]
    exact foldl_min_le ts t x hx

/-! ## Claim theorems -/

/-- C10: the pure formatting helpers reproduce the reference outputs
exactly: `format_time(0)` is `"0m 00s"`, `format_time(90)` is
`"1h 30m 00s"`, and `format_pace(5.5)` is `"5:30 /km"`. -/
theorem formatting_reference_outputs :
    format_time (some 0) = "0m 00s"
    ∧ format_time (some 90) = "1h 30m 00s"
    ∧ format_pace (11/2 : ℚ) = "5:30 /km" := by
  refine ⟨?_, ?_, ?_⟩
  · have h : ((0:ℚ) * 60) = ((0:ℤ) : ℚ) := by norm_num
    simp only [format_time, h, pyRound_intCast]
    rfl
  · have h : ((90:ℚ) * 60) = ((5400:ℤ) : ℚ) := by norm_num
    simp only [format_time, h, pyRound_intCast]
    rfl
  · have h1 : pyInt (11/2 : ℚ) = 5 := by unfold pyInt; norm_num
    have h2 : pyFloor (11/2 : ℚ) = 5 := by unfold pyFloor; norm_num
    have h3 : pyInt (((11:ℚ)/2 - ((5:ℤ):ℚ)) * 60) = 30 := by
      unfold pyInt
      norm_num
    simp only [format_pace, h1, h2, h3]
    rfl

/-- C8: on the empty activity collection `calculate_statistics` raises
(`monthly.idxmax()` on the empty monthly series raises `ValueError`,
modelled as `none`), even though the zero-distance guard makes the
`average_pace` expression itself evaluate to `0` on empty input. -/
theorem calculate_statistics_empty_raises :
    calculate_statistics ([] : List Activity) = none ∧ average_pace [] = 0 :=
  ⟨rfl, rfl⟩

/-- C9 counterexample: 15 km satisfies the claimed band-B condition
`5 ≤ d ≤ 15`, but `get_run_color` returns the band-C color
`"#ef4444"`, not the band-B color `STRAVA`. -/
theorem get_run_color_boundary_cex :
    (5:ℚ) ≤ 15 ∧ (15:ℚ) ≤ 15
    ∧ get_run_color 15 = "#ef4444" ∧ "#ef4444" ≠ STRAVA :=
  ⟨by norm_num, by norm_num, rfl, by decide⟩

/-- C9 amended: band A exactly when `d < 5`, band B exactly when
`5 ≤ d < 15`, band C exactly when `15 ≤ d`; the three conditions
partition the line, so every distance falls in exactly one band. -/
theorem get_run_color_bands (d : ℚ) :
    (get_run_color d = "#60a5fa" ↔ d < 5)
    ∧ (get_run_color d = STRAVA ↔ 5 ≤ d ∧ d < 15)
    ∧ (get_run_color d = "#ef4444" ↔ 15 ≤ d) := by
  have hAB : ("#60a5fa" : String) ≠ "#FC4C02" := by decide
  have hAC : ("#60a5fa" : String) ≠ "#ef4444" := by decide
  have hBC : ("#FC4C02" : String) ≠ "#ef4444" := by decide
  unfold get_run_color STRAVA
  by_cases h1 : d < 5
  · rw [if_pos h1]
    refine ⟨by simp [h1], ?_, ?_⟩
    · constructor
      · intro h; exact absurd h hAB
      · rintro ⟨h5, -⟩; linarith
    · constructor
      · intro h; exact absurd h hAC
      · intro h; linarith
  · by_cases h2 : d < 15
    · rw [if_neg h1, if_pos h2]
      refine ⟨?_, ?_, ?_⟩
      · constructor
        · intro h; exact absurd h.symm hAB
        · intro h; exact absurd h h1
      · simp [h2, le_of_not_lt h1]
      · constructor
        · intro h; exact absurd h hBC
        · intro h; linarith
    · rw [if_neg h1, if_neg h2]
      refine ⟨?_, ?_, ?_⟩
      · constructor
        · intro h; exact absurd h.symm hAC
        · intro h; exact absurd h h1
      · constructor
        · intro h; exact absurd h.symm hBC
        · rintro ⟨-, h⟩; exact absurd h h2
      · simp [le_of_not_lt h2]

/-- C9 witness: the amended band conditions instantiated at the three
distances 3, 7 and 15. -/
theorem get_run_color_bands_witness :
    (get_run_color 3 = "#60a5fa" ↔ (3:ℚ) < 5)
    ∧ (get_run_color 7 = STRAVA ↔ (5:ℚ) ≤ 7 ∧ (7:ℚ) < 15)
    ∧ (get_run_color 15 = "#ef4444" ↔ (15:ℚ) ≤ 15) :=
  ⟨(get_run_color_bands 3).1, (get_run_color_bands 7).2.1,
    (get_run_color_bands 15).2.2⟩

/-- C1: for every activity collection and every threshold `T` (in
particular the four used by `calculate_statistics`: 5, 10, 21.0975,
42.195), `safe_pb` is `None` exactly when no activity has
`distance_km ≥ T`; when it returns a value, that value is the minimum
`moving_time` among the qualifying activities; and the `None` case is
rendered by `format_time` as the placeholder `"N/A"` rather than
raising. -/
theorem safe_pb_spec (df : List Activity) (T : ℚ) :
    (safe_pb df T = none ↔ ∀ a ∈ df, a.distance_km < T)
    ∧ (∀ m, safe_pb df T = some m →
        (∃ a ∈ df, T ≤ a.distance_km ∧ a.moving_time = m)
        ∧ ∀ a ∈ df, T ≤ a.distance_km → m ≤ a.moving_time)
    ∧ (safe_pb df T = none → format_time (safe_pb df T) = "N/A") := by
  refine ⟨?_, ?_, ?_⟩
  · rw [safe_pb, listMin_eq_none_iff, List.map_eq_nil_iff, List.filter_eq_nil_iff]
    constructor
    · intro h a ha
      have h2 := h a ha
      simp only [decide_eq_true_eq] at h2
      exact lt_of_not_le h2
    · intro h a ha
      simp only [decide_eq_true_eq]
      exact not_le.2 (h a ha)
  · intro m hm
    rw [safe_pb] at hm
    have hmem := listMin_mem hm
    have hle := listMin_le hm
    constructor
    · rcases List.mem_map.1 hmem with ⟨a, hafil, hmt⟩
      rcases List.mem_filter.1 hafil with ⟨hadf, hTd⟩
      simp only [decide_eq_true_eq] at hTd
      exact ⟨a, hadf, hTd, hmt⟩
    · intro a hadf hTd
      apply hle
      exact List.mem_map.2
        ⟨a, List.mem_filter.2 ⟨hadf, by simpa using hTd⟩, rfl⟩
  · intro h
    rw [h]
    rfl

/-- C1 witness: on the spec's worked example, the 10 km PB is the
minimum time over qualifying runs (55), and an unreachable threshold
(50 km) renders as `"N/A"`. -/
theorem safe_pb_spec_witness :
    (∃ a ∈ exPB, (10:ℚ) ≤ a.distance_km ∧ a.moving_time = 55)
    ∧ (∀ a ∈ exPB, (10:ℚ) ≤ a.distance_km → (55:ℚ) ≤ a.moving_time)
    ∧ format_time (safe_pb exPB 50) = "N/A" :=
  ⟨((safe_pb_spec exPB 10).2.1 55 rfl).1,
   ((safe_pb_spec exPB 10).2.1 55 rfl).2,
   (safe_pb_spec exPB 50).2.2 rfl⟩

/-- C2: the average pace of `calculate_statistics` is `0` when the total
distance is `0`, and otherwise (for the non-negative distances of the
data model) equals `sum(moving_time) / sum(distance_km)` exactly; the
guard means the division is only taken with a positive divisor, so the
expression never raises. -/
theorem average_pace_spec (df : List Activity) :
    (totalDistance df = 0 → average_pace df = 0)
    ∧ ((∀ a ∈ df, 0 ≤ a.distance_km) → totalDistance df ≠ 0 →
        average_pace df = totalMovingTime df / totalDistance df)
    ∧ (∀ s, calculate_statistics df = some s →
        s.average_pace = average_pace df) := by
  refine ⟨?_, ?_, ?_⟩
  · intro h
    rw [average_pace, h]
    norm_num
  · intro hnn hne
    have hnonneg : 0 ≤ totalDistance df := by
      apply List.sum_nonneg
      intro x hx
      rcases List.mem_map.1 hx with ⟨a, ha, rfl⟩
      exact hnn a ha
    have hpos : 0 < totalDistance df := lt_of_le_of_ne hnonneg (Ne.symm hne)
    rw [average_pace, if_pos hpos]
  · intro s hs
    unfold calculate_statistics at hs
    rcases hidx : idxmax (monthlySize df) with _ | k
    · rw [hidx] at hs
      simp at hs
    · rw [hidx] at hs
      simp only [Option.some.injEq] at hs
      rw [← hs]

/-- C2 witness: on the spec's worked example the total distance is 15,
which is nonzero, and the average pace is the quotient of the sums. -/
theorem average_pace_spec_witness :
    (∀ a ∈ exPB, 0 ≤ a.distance_km) ∧ totalDistance exPB ≠ 0
    ∧ average_pace exPB = totalMovingTime exPB / totalDistance exPB := by
  have hd : totalDistance exPB ≠ 0 := by
    show ((exPB.map (fun a => a.distance_km)).sum ≠ 0)
    simp only [exPB, mkRun, List.map_cons, List.map_nil, List.sum_cons,
      List.sum_nil]
    norm_num
  exact ⟨by decide, hd, (average_pace_spec exPB).2.1 (by decide) hd⟩

/-- C6: the per-activity pace `moving_time / distance_km` computed by
`load_data` is float division, which on a zero distance yields a
defined non-finite sentinel (NaN or a signed infinity) without raising;
on a nonzero distance it is the plain quotient. -/
theorem pace_division_by_zero_sentinel (a : Activity) :
    (a.distance_km = 0 →
      load_pace a = FVal.nan ∨ load_pace a = FVal.inf
        ∨ load_pace a = FVal.neginf)
    ∧ (a.distance_km ≠ 0 →
      load_pace a = FVal.finite (a.moving_time / a.distance_km)) := by
  constructor
  · intro h
    unfold load_pace npDiv
    rw [if_pos h]
    by_cases h2 : a.moving_time = 0
    · rw [if_pos h2]
      left
      rfl
    · rw [if_neg h2]
      by_cases h3 : 0 < a.moving_time
      · rw [if_pos h3]
        right
        left
        rfl
      · rw [if_neg h3]
        right
        right
        rfl
  · intro h
    unfold load_pace npDiv
    rw [if_neg h]

/-- C6 witness: an activity with zero distance gets a sentinel pace. -/
theorem pace_division_by_zero_sentinel_witness :
    exZeroDist.distance_km = 0
    ∧ (load_pace exZeroDist = FVal.nan ∨ load_pace exZeroDist = FVal.inf
        ∨ load_pace exZeroDist = FVal.neginf) :=
  ⟨rfl, (pace_division_by_zero_sentinel exZeroDist).1 rfl⟩

/-- C5 counterexample: in a batch of three run records whose middle
polyline fails to decode, the fetch loop propagates the error and
aborts, discarding the two good records — the batch does not continue
past the malformed geometry.  (Removing the malformed record makes the
same batch succeed.) -/
theorem fetch_decode_error_cex :
    fetchRuns decodeStub exBatch = Except.error DecodeError.malformed
    ∧ fetchRuns decodeStub [mkRaw "a" (some "ok"), mkRaw "c" (some "ok")]
      = Except.ok [mkActivity (mkRaw "a" (some "ok")) [(0, 0)],
                   mkActivity (mkRaw "c" (some "ok")) [(0, 0)]] :=
  ⟨rfl, rfl⟩

/-- C5 amended: during ingestion a run record whose polyline field is
missing or empty is skipped and the rest of the batch continues, but a
record whose polyline fails to decode propagates the `DecodeError` and
aborts the whole fetch run. -/
theorem fetch_skip_and_abort
    (decode : String → Except DecodeError (List (ℚ × ℚ)))
    (a : RawActivity) (rest : List RawActivity) :
    (isRun a = true → polyData a = none →
      fetchRuns decode (a :: rest) = fetchRuns decode rest)
    ∧ (∀ p e, isRun a = true → polyData a = some p → decode p = Except.error e →
      fetchRuns decode (a :: rest) = Except.error e) := by
  constructor
  · intro hrun hpoly
    conv_lhs => rw [fetchRuns]
    rw [if_pos hrun, hpoly]
  · intro p e hrun hpoly hdec
    conv_lhs => rw [fetchRuns]
    rw [if_pos hrun, hpoly]
    simp only [hdec]

/-- C5 witness: the amended behavior at concrete records — an empty
polyline is skipped, a failing decode aborts. -/
theorem fetch_skip_and_abort_witness :
    fetchRuns decodeStub (mkRaw "e" (some "") :: [mkRaw "a" (some "ok")])
      = fetchRuns decodeStub [mkRaw "a" (some "ok")]
    ∧ fetchRuns decodeStub (mkRaw "b" (some "bad") :: [mkRaw "a" (some "ok")])
      = Except.error DecodeError.malformed :=
  ⟨(fetch_skip_and_abort decodeStub (mkRaw "e" (some "")) _).1 rfl rfl,
   (fetch_skip_and_abort decodeStub (mkRaw "b" (some "bad")) _).2
     "bad" DecodeError.malformed rfl rfl rfl⟩

theorem dateLe_total (s t : Timestamp) : dateLe s t = true ∨ dateLe t s = true := by
  unfold dateLe
  simp only [decide_eq_true_eq]
  rcases lt_trichotomy s.month t.month with h | h | h
  · exact Or.inl (Or.inl h)
  · rcases le_total s.sub t.sub with h2 | h2
    · exact Or.inl (Or.inr ⟨h, h2⟩)
    · exact Or.inr (Or.inr ⟨h.symm, h2⟩)
  · exact Or.inr (Or.inl h)

theorem insertByDate_perm (a : Activity) (l : List Activity) :
    (insertByDate a l).Perm (a :: l) := by
  induction l with
  | nil => simp [insertByDate]
  | cons b bs ih =>
    unfold insertByDate
    split
    · exact List.Perm.refl _
    · exact List.Perm.trans (List.Perm.cons b ih) (List.Perm.swap a b bs)

theorem sort_values_date_perm (df : List Activity) :
    (sort_values_date df).Perm df := by
  induction df with
  | nil => simp [sort_values_date]
  | cons a as ih =>
    have h1 : sort_values_date (a :: as) = insertByDate a (sort_values_date as) := rfl
    rw [h1]
    exact List.Perm.trans (insertByDate_perm a _) (List.Perm.cons a ih)

theorem insertByDate_chain (a : Activity) (l : List Activity)
    (h : List.Chain' (fun x y => dateLe x.date y.date = true) l) :
    List.Chain' (fun x y => dateLe x.date y.date = true) (insertByDate a l) := by
  induction l with
  | nil => simp [insertByDate]
  | cons b bs ih =>
    unfold insertByDate
    split
    case isTrue hab => exact List.Chain'.cons hab h
    case isFalse hab =>
      have hba : dateLe b.date a.date = true :=
        (dateLe_total a.date b.date).resolve_left (by simpa using hab)
      have hbs : List.Chain' (fun x y => dateLe x.date y.date = true) bs :=
        (List.chain'_cons'.1 h).2
      apply List.chain'_cons'.2
      refine ⟨?_, ih hbs⟩
      intro c hc
      cases bs with
      | nil =>
        simp only [insertByDate, List.head?_cons, Option.mem_def,
          Option.some.injEq] at hc
        rw [← hc]
        exact hba
      | cons d ds =>
        unfold insertByDate at hc
        split at hc
        · simp only [List.head?_cons, Option.mem_def, Option.some.injEq] at hc
          rw [← hc]
          exact hba
        · simp only [List.head?_cons, Option.mem_def, Option.some.injEq] at hc
          rw [← hc]
          exact (List.chain'_cons'.1 h).1 d rfl

theorem sort_values_date_chain (df : List Activity) :
    List.Chain' (fun x y => dateLe x.date y.date = true) (sort_values_date df) := by
  induction df with
  | nil => simp [sort_values_date]
  | cons a as ih => exact insertByDate_chain a _ ih

theorem cumsumGo_length (xs : List ℚ) : ∀ acc, (cumsumGo acc xs).length = xs.length := by
  induction xs with
  | nil => intro acc; rfl
  | cons x xs ih =>
    intro acc
    simp only [cumsumGo, List.length_cons, ih]

theorem cumsumGo_chain (xs : List ℚ) (hnn : ∀ x ∈ xs, 0 ≤ x) :
    ∀ acc, List.Chain' (· ≤ ·) (cumsumGo acc xs) := by
  induction xs with
  | nil => intro acc; simp [cumsumGo]
  | cons x xs ih =>
    intro acc
    have hx : ∀ y ∈ xs, 0 ≤ y := fun y hy => hnn y (List.mem_cons.2 (Or.inr hy))
    cases xs with
    | nil => simp [cumsumGo]
    | cons y ys =>
      have hy : 0 ≤ y := hx y (List.mem_cons_self _ _)
      show List.Chain' (· ≤ ·) ((acc + x) :: (acc + x + y) :: cumsumGo (acc + x + y) ys)
      rw [List.chain'_cons]
      exact ⟨by linarith, ih hx (acc + x)⟩

theorem cumsumGo_getLast (xs : List ℚ) (h : xs ≠ []) :
    ∀ acc, (cumsumGo acc xs).getLast? = some (acc + xs.sum) := by
  induction xs with
  | nil => exact absurd rfl h
  | cons x xs ih =>
    intro acc
    cases xs with
    | nil => simp [cumsumGo]
    | cons y ys =>
      show ((acc + x) :: cumsumGo (acc + x) (y :: ys)).getLast? = _
      have h2 : cumsumGo (acc + x) (y :: ys) = (acc + x + y) :: cumsumGo (acc + x + y) ys := rfl
      rw [h2, List.getLast?_cons_cons, ← h2, ih (by simp) (acc + x)]
      congr 1
      simp only [List.sum_cons]
      ring

/-- C3: the cumulative series is the running sum of `distance_km` over
the activities reordered ascending by date (a permutation of the
collection, sorted by date), with one point per activity; for
non-negative distances it is non-decreasing, and on non-empty input its
final value equals the total distance. -/
theorem cumulative_spec (df : List Activity) :
    (sort_values_date df).Perm df
    ∧ List.Chain' (fun x y => dateLe x.date y.date = true) (sort_values_date df)
    ∧ (cumulative_km df).length = df.length
    ∧ ((∀ a ∈ df, 0 ≤ a.distance_km) → List.Chain' (· ≤ ·) (cumulative_km df))
    ∧ (df ≠ [] → (cumulative_km df).getLast? = some (totalDistance df)) := by
  have hperm := sort_values_date_perm df
  refine ⟨hperm, sort_values_date_chain df, ?_, ?_, ?_⟩
  · rw [cumulative_km, cumsumGo_length, List.length_map, hperm.length_eq]
  · intro hnn
    apply cumsumGo_chain
    intro x hx
    rcases List.mem_map.1 hx with ⟨a, ha, rfl⟩
    exact hnn a (hperm.mem_iff.1 ha)
  · intro hne
    have hmapne : (sort_values_date df).map (fun a => a.distance_km) ≠ [] := by
      simp only [ne_eq, List.map_eq_nil_iff]
      intro hsort
      apply hne
      have := hperm.length_eq
      rw [hsort] at this
      exact List.length_eq_zero.1 this.symm
    rw [cumulative_km, cumsumGo_getLast _ hmapne, zero_add]
    congr 1
    exact (hperm.map (fun a => a.distance_km)).sum_eq

/-- C3 witness: a two-activity collection with out-of-order dates — the
series is non-decreasing and ends at the total distance. -/
theorem cumulative_spec_witness :
    (∀ a ∈ exCum, 0 ≤ a.distance_km) ∧ exCum ≠ []
    ∧ List.Chain' (· ≤ ·) (cumulative_km exCum)
    ∧ (cumulative_km exCum).getLast? = some (totalDistance exCum) :=
  ⟨by decide, by decide,
   (cumulative_spec exCum).2.2.2.1 (by decide),
   (cumulative_spec exCum).2.2.2.2 (by decide)⟩

theorem mem_resampleMonths (df : List Activity) (hne : df ≠ []) (m : ℤ) :
    m ∈ resampleMonths df ↔
      ((∃ a ∈ df, monthOf a ≤ m) ∧ (∃ a ∈ df, m ≤ monthOf a)) := by
  rcases hmap : df.map monthOf with _ | ⟨m0, ms⟩
  · exact absurd (List.map_eq_nil_iff.1 hmap) hne
  · simp only [resampleMonths, hmap]
    have hlo_mem : ms.foldl min m0 ∈ m0 :: ms := foldl_min_mem ms m0
    have hhi_mem : ms.foldl max m0 ∈ m0 :: ms := foldl_max_mem ms m0
    constructor
    · intro hm
      rcases List.mem_map.1 hm with ⟨i, hir, heq⟩
      have hir2 := List.mem_range.1 hir
      rw [← hmap] at hlo_mem hhi_mem
      rcases List.mem_map.1 hlo_mem with ⟨a1, ha1, hlo1⟩
      rcases List.mem_map.1 hhi_mem with ⟨a2, ha2, hhi2⟩
      refine ⟨⟨a1, ha1, ?_⟩, ⟨a2, ha2, ?_⟩⟩
      · rw [hlo1]
        omega
      · rw [hhi2]
        omega
    · rintro ⟨⟨a1, ha1, hle1⟩, ⟨a2, ha2, hle2⟩⟩
      have h1 : monthOf a1 ∈ m0 :: ms := by
        rw [← hmap]
        exact List.mem_map.2 ⟨a1, ha1, rfl⟩
      have h2 : monthOf a2 ∈ m0 :: ms := by
        rw [← hmap]
        exact List.mem_map.2 ⟨a2, ha2, rfl⟩
      have hlo_le : ms.foldl min m0 ≤ monthOf a1 := foldl_min_le ms m0 _ h1
      have hhi_ge : monthOf a2 ≤ ms.foldl max m0 := foldl_le_max ms m0 _ h2
      refine List.mem_map.2 ⟨(m - ms.foldl min m0).toNat, List.mem_range.2 ?_, ?_⟩
      · omega
      · omega

/-- C4 counterexample: for a collection with activities in months 0 and
2 only, the monthly distance series contains an entry for month 1
(with distance 0) even though no activity falls in month 1 — a
zero-activity month inside the observed range does appear. -/
theorem monthly_dist_zero_month_cex :
    (1, (0:ℚ)) ∈ monthly_dist exGap ∧ ∀ a ∈ exGap, monthOf a ≠ 1 := by
  refine ⟨?_, by decide⟩
  have h : resampleMonths exGap = [0, 1, 2] := rfl
  unfold monthly_dist
  rw [h]
  simp only [List.map_cons, List.map_nil]
  refine List.mem_cons.2 (Or.inr (List.mem_cons.2 (Or.inl ?_)))
  rfl

/-- C4 amended: for a non-empty collection, the monthly distance series
contains exactly the calendar months between the earliest and the
latest activity month (inclusive) — so months with zero activities
appear whenever they fall inside the observed range — and each entry
holds the sum of `distance_km` over that month's activities. -/
theorem monthly_dist_months (df : List Activity) (hne : df ≠ []) :
    (∀ m : ℤ, (∃ q, (m, q) ∈ monthly_dist df) ↔
      ((∃ a ∈ df, monthOf a ≤ m) ∧ (∃ a ∈ df, m ≤ monthOf a)))
    ∧ ∀ m q, (m, q) ∈ monthly_dist df →
      q = ((df.filter (fun a => monthOf a = m)).map
        (fun a => a.distance_km)).sum := by
  constructor
  · intro m
    rw [← mem_resampleMonths df hne m]
    unfold monthly_dist
    constructor
    · rintro ⟨q, hq⟩
      rcases List.mem_map.1 hq with ⟨m', hm', heq⟩
      injection heq with h1 h2
      rw [← h1]
      exact hm'
    · intro hm
      exact ⟨_, List.mem_map.2 ⟨m, hm, rfl⟩⟩
  · intro m q hq
    rcases List.mem_map.1 hq with ⟨m', hm', heq⟩
    injection heq with h1 h2
    rw [← h2, h1]

/-- C4 witness: the amended statement instantiated on the two-activity
collection with a gap month — month 1 lies in the observed range, so it
has an entry. -/
theorem monthly_dist_months_witness :
    exGap ≠ [] ∧ (∃ q, (1, q) ∈ monthly_dist exGap) :=
  ⟨by decide,
   ((monthly_dist_months exGap (by decide)).1 1).mpr
     ⟨⟨mkA 0 5, by decide, by decide⟩, ⟨mkA 2 7, by decide, by decide⟩⟩⟩

theorem idxmaxGo_spec {β : Type} [LinearOrder β] :
    ∀ (ps : List (ℤ × β)) (best : ℤ × β),
      ∃ v pre post,
        best :: ps = pre ++ (idxmaxGo best ps, v) :: post
        ∧ (∀ p ∈ pre, p.2 < v) ∧ (∀ p ∈ post, p.2 ≤ v) := by
  intro ps
  induction ps with
  | nil =>
    intro best
    refine ⟨best.2, [], [], ?_, by simp, by simp⟩
    simp [idxmaxGo]
  | cons p ps ih =>
    intro best
    by_cases hlt : best.2 < p.2
    · obtain ⟨v, pre, post, heq, hpre, hpost⟩ := ih p
      have hgo : idxmaxGo best (p :: ps) = idxmaxGo p ps := by
        simp [idxmaxGo, hlt]
      refine ⟨v, best :: pre, post, ?_, ?_, hpost⟩
      · rw [hgo, List.cons_append, ← heq]
      · intro q hq
        rcases List.mem_cons.1 hq with h1 | h1
        · have hp2 : p.2 ≤ v := by
            have hpmem : p ∈ p :: ps := List.mem_cons_self _ _
            rw [heq] at hpmem
            rcases List.mem_append.1 hpmem with h2 | h2
            · exact le_of_lt (hpre p h2)
            · rcases List.mem_cons.1 h2 with h3 | h3
              · rw [h3]
              · exact hpost p h3
          rw [h1]
          exact lt_of_lt_of_le hlt hp2
        · exact hpre q h1
    · obtain ⟨v, pre, post, heq, hpre, hpost⟩ := ih best
      have hgo : idxmaxGo best (p :: ps) = idxmaxGo best ps := by
        simp [idxmaxGo, hlt]
      have hple : p.2 ≤ best.2 := le_of_not_lt hlt
      cases pre with
      | nil =>
        simp only [List.nil_append] at heq
        injection heq with h1 h2
        refine ⟨v, [], p :: post, ?_, by simp, ?_⟩
        · rw [hgo]
          simp only [List.nil_append]
          rw [← h1, ← h2]
        · intro q hq
          rcases List.mem_cons.1 hq with h3 | h3
          · rw [h3]
            have hbv : best.2 = v := by rw [h1]
            rw [← hbv]
            exact hple
          · exact hpost q h3
      | cons b pre2 =>
        rw [List.cons_append] at heq
        injection heq with h1 h2
        refine ⟨v, best :: p :: pre2, post, ?_, ?_, hpost⟩
        · rw [hgo]
          simp only [List.cons_append]
          rw [← h2]
        · intro q hq
          rcases List.mem_cons.1 hq with h3 | h3
          · rw [h3, h1]
            exact hpre b (List.mem_cons_self _ _)
          · rcases List.mem_cons.1 h3 with h4 | h4
            · rw [h4]
              have hb : b.2 < v := hpre b (List.mem_cons_self _ _)
              have hbv : best.2 < v := by rw [h1]; exact hb
              exact lt_of_le_of_lt hple hbv
            · exact hpre q (List.mem_cons.2 (Or.inr h4))

theorem resampleMonths_pairwise (df : List Activity) :
    List.Pairwise (· < ·) (resampleMonths df) := by
  rcases hmap : df.map monthOf with _ | ⟨m0, ms⟩ <;>
    simp only [resampleMonths, hmap]
  · simp
  · refine List.Pairwise.map _ ?_ (List.pairwise_lt_range _)
    intro a b h
    omega

theorem resampleMonths_ne (df : List Activity) (hne : df ≠ []) :
    resampleMonths df ≠ [] := by
  rcases hmap : df.map monthOf with _ | ⟨m0, ms⟩
  · exact absurd (List.map_eq_nil_iff.1 hmap) hne
  · simp only [resampleMonths, hmap]
    have h1 : ms.foldl min m0 ≤ m0 := foldl_min_le ms m0 m0 (List.mem_cons_self _ _)
    have h2 : m0 ≤ ms.foldl max m0 := foldl_le_max ms m0 m0 (List.mem_cons_self _ _)
    simp only [ne_eq, List.map_eq_nil_iff, List.range_eq_nil]
    omega

theorem monthlySize_keys_pairwise (df : List Activity) :
    List.Pairwise (fun p q : ℤ × ℕ => p.1 < q.1) (monthlySize df) := by
  unfold monthlySize
  refine List.Pairwise.map _ ?_ (resampleMonths_pairwise df)
  intro a b h
  simpa using h

theorem monthlySize_ne (df : List Activity) (hne : df ≠ []) :
    monthlySize df ≠ [] := by
  unfold monthlySize
  simp only [ne_eq, List.map_eq_nil_iff]
  exact resampleMonths_ne df hne

theorem valuesMax_spec (s0 : ℤ × ℕ) (srest : List (ℤ × ℕ)) :
    (∃ p ∈ s0 :: srest, p.2 = valuesMax (s0 :: srest))
    ∧ ∀ p ∈ s0 :: srest, p.2 ≤ valuesMax (s0 :: srest) := by
  have hval : valuesMax (s0 :: srest) = (srest.map Prod.snd).foldl max s0.2 := by
    simp [valuesMax]
  constructor
  · have hmem := foldl_max_mem (srest.map Prod.snd) s0.2
    rw [← hval] at hmem
    rcases List.mem_cons.1 hmem with h1 | h1
    · exact ⟨s0, List.mem_cons_self _ _, h1.symm⟩
    · rcases List.mem_map.1 h1 with ⟨p, hp, hp2⟩
      exact ⟨p, List.mem_cons.2 (Or.inr hp), hp2⟩
  · intro p hp
    rw [hval]
    rcases List.mem_cons.1 hp with h1 | h1
    · rw [h1]
      exact foldl_le_max _ _ _ (List.mem_cons_self _ _)
    · exact foldl_le_max _ _ _
        (List.mem_cons.2 (Or.inr (List.mem_map.2 ⟨p, h1, rfl⟩)))

/-- C7: for every non-empty collection, `monthly.idxmax()` returns a
month bin `k` whose activity count `v` is the maximum over all bins,
and on ties `k` is the first such month in bucket-iteration order
(bins are iterated in ascending month order, so `k` is least among the
tied months); `calculate_statistics` reports that month (formatted
`"%B %Y"`) together with the maximum count.  In the concrete scenario
of three consecutive months with counts 2, 5, 1, the reported month is
the middle one, with count 5. -/
theorem busiest_month_spec :
    (∀ df : List Activity, df ≠ [] →
      ∃ k v, idxmax (monthlySize df) = some k
        ∧ (k, v) ∈ monthlySize df
        ∧ (∀ p ∈ monthlySize df, p.2 ≤ v)
        ∧ (∀ p ∈ monthlySize df, p.2 = v → k ≤ p.1)
        ∧ ∀ s, calculate_statistics df = some s →
            s.month_with_most_activities = fmtMonthYear k
            ∧ s.most_activities_count = v)
    ∧ idxmax (monthlySize exBusy) = some 1
    ∧ (monthlySize exBusy).map Prod.snd = [2, 5, 1] := by
  refine ⟨?_, rfl, rfl⟩
  intro df hne
  rcases hms : monthlySize df with _ | ⟨s0, srest⟩
  · exact absurd hms (monthlySize_ne df hne)
  obtain ⟨v, pre, post, heq, hpre, hpost⟩ := idxmaxGo_spec srest s0
  have hidx : idxmax (s0 :: srest) = some (idxmaxGo s0 srest) := rfl
  have hmem : (idxmaxGo s0 srest, v) ∈ s0 :: srest := by
    rw [heq]
    exact List.mem_append.2 (Or.inr (List.mem_cons_self _ _))
  have hmax : ∀ p ∈ s0 :: srest, p.2 ≤ v := by
    intro p hp
    rw [heq] at hp
    rcases List.mem_append.1 hp with h1 | h1
    · exact le_of_lt (hpre p h1)
    · rcases List.mem_cons.1 h1 with h2 | h2
      · rw [h2]
      · exact hpost p h2
  refine ⟨idxmaxGo s0 srest, v, hidx, hmem, hmax, ?_, ?_⟩
  · intro p hp hpv
    have hpw := monthlySize_keys_pairwise df
    rw [hms, heq] at hpw
    rcases List.pairwise_append.1 hpw with ⟨hpw1, hpw2, hcross⟩
    rw [heq] at hp
    rcases List.mem_append.1 hp with h1 | h1
    · exact absurd hpv (ne_of_lt (hpre p h1))
    · rcases List.mem_cons.1 h1 with h2 | h2
      · rw [h2]
      · exact le_of_lt ((List.pairwise_cons.1 hpw2).1 p h2)
  · intro s hs
    unfold calculate_statistics at hs
    rw [hms, hidx] at hs
    simp only [Option.some.injEq] at hs
    have hvm : valuesMax (s0 :: srest) = v := by
      apply le_antisymm
      · obtain ⟨p, hp, hpval⟩ := (valuesMax_spec s0 srest).1
        rw [← hpval]
        exact hmax p hp
      · exact (valuesMax_spec s0 srest).2 (idxmaxGo s0 srest, v) hmem
    constructor
    · rw [← hs]
    · rw [← hs]
      exact hvm

/-- C7 witness: the busiest-month specification instantiated on the
three-month scenario with counts 2, 5, 1. -/
theorem busiest_month_spec_witness :
    exBusy ≠ [] ∧ ∃ k v, idxmax (monthlySize exBusy) = some k
      ∧ (k, v) ∈ monthlySize exBusy
      ∧ (∀ p ∈ monthlySize exBusy, p.2 ≤ v)
      ∧ (∀ p ∈ monthlySize exBusy, p.2 = v → k ≤ p.1)
      ∧ ∀ s, calculate_statistics exBusy = some s →
          s.month_with_most_activities = fmtMonthYear k
          ∧ s.most_activities_count = v :=
  ⟨by decide, busiest_month_spec.1 exBusy (by decide)⟩
